import Mathlib

/-!
Shallow embedding of the `jmhcmp` benchmark-comparison program
(`src/main.rs`) and verification of its specification.

Strings are modelled as `List Char`.  Floating-point (`f64`) values are
modelled by `FloatM`: exact rationals for finite values plus the IEEE-754
non-finite values `inf`, `-inf` and `nan`.  Finite arithmetic is idealized
as exact rational arithmetic (no rounding, a single zero); the IEEE
behaviour on the non-finite values and on division by zero — the only part
any claim depends on — is modelled exactly.  The Unicode case folding and
whitespace classification of Rust are modelled on their ASCII subset,
which covers every token the format uses.
-/

/-- Model of Rust `f64`: a finite value (exact rational), the two
infinities, or `nan`. -/
inductive FloatM where
  | finite (q : ℚ)
  | inf
  | negInf
  | nan
deriving DecidableEq, Repr

/-- `true` exactly on finite values (IEEE `is_finite`). -/
def FloatM.isFinite : FloatM → Bool
  | .finite _ => true
  | _ => false

/-- IEEE-754 subtraction on the model (finite case idealized as exact). -/
def FloatM.sub : FloatM → FloatM → FloatM
  | .nan, _ => .nan
  | _, .nan => .nan
  | .inf, .inf => .nan
  | .inf, _ => .inf
  | .negInf, .negInf => .nan
  | .negInf, _ => .negInf
  | .finite _, .inf => .negInf
  | .finite _, .negInf => .inf
  | .finite a, .finite b => .finite (a - b)

/-- IEEE-754 division on the model: division of a nonzero finite value by
zero gives a signed infinity, `0 / 0` gives `nan`; the finite/finite case
with a nonzero divisor is idealized as exact. -/
def FloatM.div : FloatM → FloatM → FloatM
  | .nan, _ => .nan
  | _, .nan => .nan
  | .inf, .inf => .nan
  | .inf, .negInf => .nan
  | .negInf, .inf => .nan
  | .negInf, .negInf => .nan
  | .inf, .finite b => if 0 ≤ b then .inf else .negInf
  | .negInf, .finite b => if 0 ≤ b then .negInf else .inf
  | .finite _, .inf => .finite 0
  | .finite _, .negInf => .finite 0
  | .finite a, .finite b =>
    if b = 0 then (if a = 0 then .nan else if 0 < a then .inf else .negInf)
    else .finite (a / b)

/-- `enum Mode` of `src/main.rs`. -/
inductive Mode where
  | AverageTime
  | SampleTime
  | SingleShotTime
  | Throughput
deriving DecidableEq, Repr

/-- `enum ParseError` of `src/main.rs`. -/
inductive ParseError where
  | InvalidMode
  | InvalidFloat
  | InvalidInt
  | MissingName
  | MissingCount
deriving DecidableEq, Repr

/-- `struct BenchResult` of `src/main.rs` (one parsed measurement). -/
structure BenchResult where
  name : List Char
  mode : Mode
  count : Int
  score : FloatM
  error : FloatM
  units : List Char
deriving DecidableEq, Repr

/-- `struct BenchDiff` of `src/main.rs` (one matched pair's result). -/
structure BenchDiff where
  name : List Char
  mode : Mode
  old_score : FloatM
  new_score : FloatM
  units : List Char
  diff : FloatM
deriving DecidableEq, Repr

/-- ASCII subset of Rust `char::is_whitespace`. -/
def isWS (c : Char) : Bool :=
  c = ' ' || c = '\t' || c = '\n' || c = '\r' || c = '\x0b' || c = '\x0c'

/-- Accumulator for `splitWS`: `acc` holds the (reversed) current word. -/
def splitWSAux : List Char → List Char → List (List Char)
  | [], acc => if acc.isEmpty then [] else [acc.reverse]
  | c :: rest, acc =>
    if isWS c then
      if acc.isEmpty then splitWSAux rest []
      else acc.reverse :: splitWSAux rest []
    else splitWSAux rest (c :: acc)

/-- Rust `str::split_whitespace`: the maximal runs of non-whitespace
characters, in order. -/
def splitWS (s : List Char) : List (List Char) :=
  splitWSAux s []

/-- Rust `str::split('\n')` (every occurrence separates; a trailing
newline yields a trailing empty fragment). -/
def splitNL : List Char → List (List Char)
  | [] => [[]]
  | c :: rest =>
    if c = '\n' then [] :: splitNL rest
    else
      match splitNL rest with
      | [] => [[c]]
      | b :: bs => (c :: b) :: bs

/-- Rust `str::split_terminator("\n")`: like `splitNL` but the trailing
fragment is dropped when it is empty. -/
def splitTerminatorNL (s : List Char) : List (List Char) :=
  let ls := splitNL s
  if ls.getLast? = some [] then ls.dropLast else ls

/-- Rust `str::split("\n\n")`: leftmost non-overlapping occurrences of
two consecutive newlines separate the fragments. -/
def splitOnDNL : List Char → List (List Char)
  | [] => [[]]
  | [c] => [[c]]
  | c :: d :: rest =>
    if c = '\n' ∧ d = '\n' then [] :: splitOnDNL rest
    else
      match splitOnDNL (d :: rest) with
      | [] => [[c]]
      | b :: bs => (c :: b) :: bs

/-- `true` when the string contains two consecutive newlines, i.e. when
it contains at least one `"\n\n"` separator. -/
def hasDNL : List Char → Bool
  | [] => false
  | [_] => false
  | c :: d :: rest => (c = '\n' && d = '\n') || hasDNL (d :: rest)

/-- The numeric value of a digit string, `none` when empty or when some
character is not an ASCII digit. -/
def digitsToNat (ds : List Char) : Option Nat :=
  if ds.isEmpty then none
  else if ds.all Char.isDigit then
    some (ds.foldl (fun a c => a * 10 + (c.toNat - 48)) 0)
  else none

/-- Rust `i64::from_str`: optional sign, then ASCII digits, with the
value required to fit in the `i64` range. -/
def parseI64 (s : List Char) : Option Int :=
  let signAndDigits : Bool × List Char :=
    match s with
    | '+' :: r => (true, r)
    | '-' :: r => (false, r)
    | r => (true, r)
  match digitsToNat signAndDigits.2 with
  | none => none
  | some n =>
    let v : Int := if signAndDigits.1 then (n : Int) else -(n : Int)
    if -(2 ^ 63) ≤ v ∧ v ≤ 2 ^ 63 - 1 then some v else none

/-- Splits a float literal at the first `e`/`E` into mantissa and
exponent part. -/
def splitExp : List Char → List Char × Option (List Char)
  | [] => ([], none)
  | c :: r =>
    if c = 'e' ∨ c = 'E' then ([], some r)
    else
      let p := splitExp r
      (c :: p.1, p.2)

/-- The rational value of a mantissa `Digit+ ('.' Digit*)? | '.' Digit+`,
`none` when the shape is wrong. -/
def parseMantissa (m : List Char) : Option ℚ :=
  let ip := m.takeWhile Char.isDigit
  let rest := m.drop ip.length
  let ipVal : ℚ := (ip.foldl (fun a c => a * 10 + (c.toNat - 48)) 0 : ℕ)
  match rest with
  | [] => if ip.isEmpty then none else some ipVal
  | '.' :: fp =>
    if fp.all Char.isDigit ∧ (¬ip.isEmpty ∨ ¬fp.isEmpty) then
      some (ipVal + ((fp.foldl (fun a c => a * 10 + (c.toNat - 48)) 0 : ℕ) : ℚ)
        / (10 : ℚ) ^ fp.length)
    else none
  | _ => none

/-- The integer value of an exponent part `Sign? Digit+`. -/
def parseExpPart (s : List Char) : Option Int :=
  let signAndDigits : Bool × List Char :=
    match s with
    | '+' :: r => (true, r)
    | '-' :: r => (false, r)
    | r => (true, r)
  match digitsToNat signAndDigits.2 with
  | none => none
  | some n => some (if signAndDigits.1 then (n : Int) else -(n : Int))

/-- Rust `f64::from_str` on the model: optional sign, then (case
insensitively) `inf`, `infinity`, `nan`, or a decimal number with an
optional exponent.  Finite values are idealized as exact rationals. -/
def parseF64 (s : List Char) : Option FloatM :=
  let signAndRest : Bool × List Char :=
    match s with
    | '+' :: r => (true, r)
    | '-' :: r => (false, r)
    | r => (true, r)
  let pos := signAndRest.1
  let body := signAndRest.2
  let low := body.map Char.toLower
  if low = "inf".toList ∨ low = "infinity".toList then
    some (if pos then FloatM.inf else FloatM.negInf)
  else if low = "nan".toList then some FloatM.nan
  else
    let me := splitExp body
    match parseMantissa me.1 with
    | none => none
    | some q =>
      let signedQ : ℚ := if pos then q else -q
      match me.2 with
      | none => some (FloatM.finite signedQ)
      | some ep =>
        match parseExpPart ep with
        | none => none
        | some e => some (FloatM.finite (signedQ * (10 : ℚ) ^ e))

/-- `Mode::from_str` of `src/main.rs`: case-insensitive match against the
four canonical tokens, anything else is `InvalidMode`. -/
def modeFromStr (s : List Char) : Except ParseError Mode :=
  let low := s.map Char.toLower
  if low = "thrpt".toList then .ok .Throughput
  else if low = "avgt".toList then .ok .AverageTime
  else if low = "sample".toList then .ok .SampleTime
  else if low = "ss".toList then .ok .SingleShotTime
  else .error .InvalidMode

/-- `impl Display for Mode` of `src/main.rs`: the canonical token of each
variant. -/
def modeRender : Mode → List Char
  | .SampleTime => "sample".toList
  | .Throughput => "thrpt".toList
  | .SingleShotTime => "ss".toList
  | .AverageTime => "avgt".toList

/-- The token-consuming body of `parse_row` of `src/main.rs`: sequential
`next()` calls on the whitespace-token iterator (with `nth(1)` skipping
one token between score and error), short-circuiting on the first
missing or invalid field. -/
def parse_tokens : List (List Char) → Except ParseError BenchResult
  | [] => .error .MissingName
  | nameTok :: ts1 =>
    match ts1 with
    | [] => .error .InvalidMode
    | modeTok :: ts2 =>
      match modeFromStr modeTok with
      | .error e => .error e
      | .ok mode =>
        match ts2 with
        | [] => .error .MissingCount
        | countTok :: ts3 =>
          match parseI64 countTok with
          | none => .error .InvalidInt
          | some count =>
            match ts3 with
            | [] => .error .MissingCount
            | scoreTok :: ts4 =>
              match parseF64 scoreTok with
              | none => .error .InvalidFloat
              | some score =>
                match ts4 with
                | [] => .error .MissingCount
                | [_] => .error .MissingCount
                | _ :: errTok :: ts6 =>
                  match parseF64 errTok with
                  | none => .error .InvalidFloat
                  | some err =>
                    match ts6 with
                    | [] => .error .MissingCount
                    | unitsTok :: _ =>
                      .ok { name := nameTok, mode := mode, count := count,
                            score := score, error := err, units := unitsTok }

/-- `parse_row` of `src/main.rs`: tokenize one line on whitespace and
consume the fields in order. -/
def parse_row (input : List Char) : Except ParseError BenchResult :=
  parse_tokens (splitWS input)

/-- `parse_block` of `src/main.rs`: split the block into lines
(`split_terminator("\n")`), drop the line at index 0 (the header), parse
every remaining line, and collect successes and failures in order. -/
def parse_block (input : List Char) : List BenchResult × List ParseError :=
  let rows := (splitTerminatorNL input).drop 1
  let parsed := rows.map parse_row
  (parsed.filterMap (fun r => match r with | .ok b => some b | .error _ => none),
   parsed.filterMap (fun r => match r with | .ok _ => none | .error e => some e))

/-- The content-level part of `parse_file` of `src/main.rs` (the file
read itself is I/O): split the content on `"\n\n"` and parse the last
block (`last().unwrap_or_default()`; the split is never empty, the
default is never taken). -/
def parse_file (content : List Char) : List BenchResult × List ParseError :=
  parse_block ((splitOnDNL content).getLastD [])

/-- `calculate_delta` of `src/main.rs`. -/
def calculate_delta (new_bench_result old_bench_result : BenchResult) : BenchDiff :=
  { name := new_bench_result.name
    mode := new_bench_result.mode
    new_score := new_bench_result.score
    old_score := old_bench_result.score
    diff := FloatM.div (FloatM.sub new_bench_result.score old_bench_result.score)
      old_bench_result.score
    units := new_bench_result.units }

/-- `compare_benchmark_results` of `src/main.rs`: for each old record in
order, find the first new record with the same name and units and emit
its delta; unmatched old records are dropped. -/
def compare_benchmark_results (old_results new_results : List BenchResult) :
    List BenchDiff :=
  old_results.filterMap (fun o =>
    (new_results.find? (fun n => n.name == o.name && n.units == o.units)).map
      (fun n => calculate_delta n o))

/-! ## Specification-side definitions (for refinement comparisons) -/

/-- Spec-side line contract: the failure of the first missing or invalid
field in left-to-right positional order — name from token 0, mode from
token 1, count from token 2, score from token 3, error from token 5
(token 4 is skipped), units from token 6 — or the fully populated
record. -/
def rowSpecAt (ts : List (List Char)) : Except ParseError BenchResult :=
  match ts[0]? with
  | none => .error .MissingName
  | some nameTok =>
  match ts[1]? with
  | none => .error .InvalidMode
  | some modeTok =>
  match modeFromStr modeTok with
  | .error _ => .error .InvalidMode
  | .ok mode =>
  match ts[2]? with
  | none => .error .MissingCount
  | some countTok =>
  match parseI64 countTok with
  | none => .error .InvalidInt
  | some count =>
  match ts[3]? with
  | none => .error .MissingCount
  | some scoreTok =>
  match parseF64 scoreTok with
  | none => .error .InvalidFloat
  | some score =>
  match ts[5]? with
  | none => .error .MissingCount
  | some errTok =>
  match parseF64 errTok with
  | none => .error .InvalidFloat
  | some err =>
  match ts[6]? with
  | none => .error .MissingCount
  | some unitsTok =>
  .ok { name := nameTok, mode := mode, count := count,
        score := score, error := err, units := unitsTok }

/-- Spec-side matching: the first record of `news` whose name and units
agree with those of `o`. -/
def firstMatchSpec (news : List BenchResult) (o : BenchResult) : Option BenchResult :=
  match news with
  | [] => none
  | n :: rest =>
    if n.name = o.name ∧ n.units = o.units then some n else firstMatchSpec rest o

/-- Spec-side diff for a matched pair: `(new_score - old_score) /
old_score`, with name, mode and units taken from the new record. -/
def diffSpec (o n : BenchResult) : BenchDiff :=
  { name := n.name
    mode := n.mode
    old_score := o.score
    new_score := n.score
    units := n.units
    diff := FloatM.div (FloatM.sub n.score o.score) o.score }

/-- Spec-side matcher: iterate the old records in order; each one that
has a first match in `news` emits exactly one diff, the rest emit
nothing. -/
def matcherSpec (olds news : List BenchResult) : List BenchDiff :=
  match olds with
  | [] => []
  | o :: rest =>
    match firstMatchSpec news o with
    | some n => diffSpec o n :: matcherSpec rest news
    | none => matcherSpec rest news

/-! ## Helper lemmas -/

theorem splitNL_ne_nil : ∀ s : List Char, splitNL s ≠ []
  | [] => by simp [splitNL]
  | c :: rest => by
    simp only [splitNL]
    split
    · simp
    · cases h : splitNL rest <;> simp

theorem splitNL_append_newline (hdr rest : List Char) (h : '\n' ∉ hdr) :
    splitNL (hdr ++ '\n' :: rest) = hdr :: splitNL rest := by
  induction hdr with
  | nil => simp [splitNL]
  | cons c hd ih =>
    have hc : c ≠ '\n' := fun hc => h (by simp [hc])
    have hh : '\n' ∉ hd := fun hm => h (List.mem_cons_of_mem _ hm)
    simp only [List.cons_append, splitNL, List.append_eq, if_neg hc, ih hh]

theorem splitNL_no_newline (s : List Char) (h : '\n' ∉ s) :
    splitNL s = [s] := by
  induction s with
  | nil => simp [splitNL]
  | cons c rest ih =>
    have hc : c ≠ '\n' := fun hc => h (by simp [hc])
    have hr : '\n' ∉ rest := fun hm => h (List.mem_cons_of_mem _ hm)
    simp [splitNL, hc, ih hr]

theorem splitOnDNL_ne_nil : ∀ s : List Char, splitOnDNL s ≠ []
  | [] => by simp [splitOnDNL]
  | [c] => by simp [splitOnDNL]
  | c :: d :: rest => by
    simp only [splitOnDNL]
    split
    · simp
    · cases h : splitOnDNL (d :: rest) <;> simp

theorem splitOnDNL_no_dnl : ∀ s : List Char, hasDNL s = false → splitOnDNL s = [s]
  | [] => by simp [splitOnDNL]
  | [c] => by simp [splitOnDNL]
  | c :: d :: rest => by
    intro h
    simp only [hasDNL, Bool.or_eq_false_iff, Bool.and_eq_false_iff] at h
    obtain ⟨h1, h2⟩ := h
    have hnd : ¬(c = '\n' ∧ d = '\n') := by
      rcases h1 with h1 | h1 <;> simp_all
    simp only [splitOnDNL, if_neg hnd, splitOnDNL_no_dnl (d :: rest) h2]

theorem splitOnDNL_append_sep :
    ∀ pre post : List Char, hasDNL (pre ++ ['\n']) = false →
      splitOnDNL (pre ++ '\n' :: '\n' :: post) = pre :: splitOnDNL post
  | [], post => by
    intro _
    simp [splitOnDNL]
  | [c], post => by
    intro h
    simp only [hasDNL, List.cons_append, List.nil_append,
      Bool.or_eq_false_iff, Bool.and_eq_false_iff] at h
    have hc : c ≠ '\n' := by
      rcases h.1 with h1 | h1 <;> simp_all
    have hnd : ¬(c = '\n' ∧ '\n' = '\n') := fun hx => hc hx.1
    simp only [List.cons_append, List.nil_append, splitOnDNL, if_neg hnd]
    have : splitOnDNL ('\n' :: '\n' :: post) = [] :: splitOnDNL post := by
      simp [splitOnDNL]
    simp [this, hc]
  | c :: d :: pre', post => by
    intro h
    simp only [hasDNL, List.cons_append, Bool.or_eq_false_iff,
      Bool.and_eq_false_iff] at h
    have hnd : ¬(c = '\n' ∧ d = '\n') := by
      rcases h.1 with h1 | h1 <;> simp_all
    have ih := splitOnDNL_append_sep (d :: pre') post (by
      simpa [hasDNL] using h.2)
    simp only [List.cons_append] at ih ⊢
    simp only [splitOnDNL, if_neg hnd, ih]

theorem splitWSAux_all_ws :
    ∀ w : List Char, w.all isWS = true → splitWSAux w [] = []
  | [], _ => by simp [splitWSAux]
  | c :: rest, h => by
    simp only [List.all_cons, Bool.and_eq_true] at h
    simp [splitWSAux, h.1, splitWSAux_all_ws rest h.2]

theorem find?_eq_firstMatchSpec (news : List BenchResult) (o : BenchResult) :
    news.find? (fun n => n.name == o.name && n.units == o.units) =
      firstMatchSpec news o := by
  induction news with
  | nil => simp [firstMatchSpec]
  | cons n rest ih =>
    by_cases hp : n.name = o.name ∧ n.units = o.units
    · simp [List.find?, firstMatchSpec, hp]
    · have hb : (n.name == o.name && n.units == o.units) = false := by
        rw [Bool.and_eq_false_iff]
        by_cases h1 : n.name = o.name
        · right
          simp [beq_eq_false_iff_ne]
          exact fun h2 => hp ⟨h1, h2⟩
        · left
          simp [beq_eq_false_iff_ne]
          exact h1
      simp [List.find?, firstMatchSpec, hp, hb, ih]
theorem modeFromStr_error_eq (s : List Char) (e : ParseError)
    (h : modeFromStr s = .error e) : e = .InvalidMode := by
  simp only [modeFromStr] at h
  split at h
  · exact absurd h (by simp)
  · split at h
    · exact absurd h (by simp)
    · split at h
      · exact absurd h (by simp)
      · split at h
        · exact absurd h (by simp)
        · simpa using h.symm

theorem parse_tokens_eq_rowSpecAt : ∀ ts, parse_tokens ts = rowSpecAt ts := by
  intro ts
  match ts with
  | [] => rfl
  | [a] => simp [parse_tokens, rowSpecAt]
  | [a, b] =>
    cases hm : modeFromStr b with
    | error e =>
      have he := modeFromStr_error_eq b e hm
      simp [parse_tokens, rowSpecAt, hm, he]
    | ok m => simp [parse_tokens, rowSpecAt, hm]
  | [a, b, c] =>
    cases hm : modeFromStr b with
    | error e =>
      have he := modeFromStr_error_eq b e hm
      simp [parse_tokens, rowSpecAt, hm, he]
    | ok m =>
      cases hi : parseI64 c <;> simp [parse_tokens, rowSpecAt, hm, hi]
  | [a, b, c, d] =>
    cases hm : modeFromStr b with
    | error e =>
      have he := modeFromStr_error_eq b e hm
      simp [parse_tokens, rowSpecAt, hm, he]
    | ok m =>
      cases hi : parseI64 c with
      | none => simp [parse_tokens, rowSpecAt, hm, hi]
      | some cnt =>
        cases hs : parseF64 d <;> simp [parse_tokens, rowSpecAt, hm, hi, hs]
  | [a, b, c, d, e] =>
    cases hm : modeFromStr b with
    | error er =>
      have he := modeFromStr_error_eq b er hm
      simp [parse_tokens, rowSpecAt, hm, he]
    | ok m =>
      cases hi : parseI64 c with
      | none => simp [parse_tokens, rowSpecAt, hm, hi]
      | some cnt =>
        cases hs : parseF64 d <;> simp [parse_tokens, rowSpecAt, hm, hi, hs]
  | [a, b, c, d, e, f] =>
    cases hm : modeFromStr b with
    | error er =>
      have he := modeFromStr_error_eq b er hm
      simp [parse_tokens, rowSpecAt, hm, he]
    | ok m =>
      cases hi : parseI64 c with
      | none => simp [parse_tokens, rowSpecAt, hm, hi]
      | some cnt =>
        cases hs : parseF64 d with
        | none => simp [parse_tokens, rowSpecAt, hm, hi, hs]
        | some sc =>
          cases hf : parseF64 f <;> simp [parse_tokens, rowSpecAt, hm, hi, hs, hf]
  | a :: b :: c :: d :: e :: f :: g :: rest =>
    cases hm : modeFromStr b with
    | error er =>
      have he := modeFromStr_error_eq b er hm
      simp [parse_tokens, rowSpecAt, hm, he]
    | ok m =>
      cases hi : parseI64 c with
      | none => simp [parse_tokens, rowSpecAt, hm, hi]
      | some cnt =>
        cases hs : parseF64 d with
        | none => simp [parse_tokens, rowSpecAt, hm, hi, hs]
        | some sc =>
          cases hf : parseF64 f <;> simp [parse_tokens, rowSpecAt, hm, hi, hs, hf]

/-! ## Shared example records -/

/-- Example old record (score 100). -/
def exOld1 : BenchResult :=
  { name := "bench1".toList, mode := .Throughput, count := 5,
    score := .finite 100, error := .finite 1, units := "ops/s".toList }

/-- Example old record with the same key as `exOld1` (score 200). -/
def exOld2 : BenchResult :=
  { name := "bench1".toList, mode := .Throughput, count := 5,
    score := .finite 200, error := .finite 1, units := "ops/s".toList }

/-- Example new record with the same key (score 110). -/
def exNew1 : BenchResult :=
  { name := "bench1".toList, mode := .Throughput, count := 5,
    score := .finite 110, error := .finite 1, units := "ops/s".toList }

/-- A second new record with the same key as `exNew1` (score 999). -/
def exNew2 : BenchResult :=
  { name := "bench1".toList, mode := .Throughput, count := 5,
    score := .finite 999, error := .finite 1, units := "ops/s".toList }

/-- Example old record whose score is zero. -/
def exZeroOld : BenchResult :=
  { name := "bench1".toList, mode := .Throughput, count := 5,
    score := .finite 0, error := .finite 1, units := "ops/s".toList }

/-! ## Claim theorems -/

/-- C1: for every record `o` in the old collection, the matcher searches
the new collection for the first record `n` with `n.name == o.name` and
`n.units == o.units`; when such `n` exists it emits exactly one diff
whose `diff` field is `(n.score - o.score) / o.score` and whose mode is
taken from `n`; when no such `n` exists, `o` yields nothing; the diffs
appear in the iteration order of the old collection. -/
theorem compare_first_match_in_old_order
    (old_results new_results : List BenchResult) :
    compare_benchmark_results old_results new_results =
      matcherSpec old_results new_results := by
  induction old_results with
  | nil => rfl
  | cons o rest ih =>
    simp only [compare_benchmark_results, List.filterMap_cons, matcherSpec,
      find?_eq_firstMatchSpec] at *
    cases h : firstMatchSpec new_results o with
    | none => simpa [h] using ih
    | some n =>
      simp only [h, Option.map_some]
      exact congrArg _ ih

/-- C2: matching is not injective — records in the new collection that
share a `(name, units)` key are all shadowed by the first one, so old
records with equal keys obtain the same first match (demonstrated below
by two distinct duplicate-keyed new records both matched to the first),
and each duplicate-keyed old record produces its own diff; the result is
a deterministic function of the two input sequences. -/
theorem compare_duplicate_keys_first_wins :
    (∀ (news : List BenchResult) (o₁ o₂ : BenchResult),
        o₁.name = o₂.name → o₁.units = o₂.units →
        news.find? (fun n => n.name == o₁.name && n.units == o₁.units) =
          news.find? (fun n => n.name == o₂.name && n.units == o₂.units)) ∧
      exNew1 ≠ exNew2 ∧
      compare_benchmark_results [exOld1, exOld2] [exNew1, exNew2] =
        [calculate_delta exNew1 exOld1, calculate_delta exNew1 exOld2] := by
  refine ⟨fun news o₁ o₂ h1 h2 => by simp only [h1, h2], ?_, rfl⟩
  intro hcontra
  have : exNew1.score = exNew2.score := by rw [hcontra]
  simp only [exNew1, exNew2, FloatM.finite.injEq] at this
  norm_num at this

/-- C2 witness: the universally quantified part applied to concrete
records with equal keys. -/
theorem compare_duplicate_keys_first_wins_witness :
    [exNew1, exNew2].find?
        (fun n => n.name == exOld1.name && n.units == exOld1.units) =
      [exNew1, exNew2].find?
        (fun n => n.name == exOld2.name && n.units == exOld2.units) :=
  compare_duplicate_keys_first_wins.1 [exNew1, exNew2] exOld1 exOld2 rfl rfl

/-- C3: for every matched pair whose old record has score zero, the
computed `diff` field is non-finite (an infinity or `nan`), whatever the
new score is. -/
theorem calculate_delta_zero_old_nonfinite (n o : BenchResult)
    (h : o.score = FloatM.finite 0) :
    (calculate_delta n o).diff.isFinite = false := by
  cases hn : n.score with
  | finite q =>
    rcases lt_trichotomy q 0 with hq | hq | hq
    · simp [calculate_delta, h, hn, FloatM.sub, FloatM.div, FloatM.isFinite,
        hq, hq.ne, not_lt_of_lt hq]
    · simp [calculate_delta, h, hn, FloatM.sub, FloatM.div, FloatM.isFinite, hq]
    · simp [calculate_delta, h, hn, FloatM.sub, FloatM.div, FloatM.isFinite,
        hq, hq.ne']
  | inf => simp [calculate_delta, h, hn, FloatM.sub, FloatM.div, FloatM.isFinite]
  | negInf => simp [calculate_delta, h, hn, FloatM.sub, FloatM.div, FloatM.isFinite]
  | nan => simp [calculate_delta, h, hn, FloatM.sub, FloatM.div, FloatM.isFinite]

/-- C3 witness: a concrete pair whose old score is zero. -/
theorem calculate_delta_zero_old_nonfinite_witness :
    exZeroOld.score = FloatM.finite 0 ∧
      (calculate_delta exNew1 exZeroOld).diff.isFinite = false :=
  ⟨rfl, calculate_delta_zero_old_nonfinite exNew1 exZeroOld rfl⟩

/-- Helper for the header claim: the data rows of a block do not depend
on the content of its first line. -/
theorem parse_block_rows_header (hdr rest : List Char) (h : '\n' ∉ hdr) :
    (splitTerminatorNL (hdr ++ '\n' :: rest)).drop 1 =
      (splitTerminatorNL ('\n' :: rest)).drop 1 := by
  simp only [splitTerminatorNL]
  rw [splitNL_append_newline hdr rest h]
  have h0 : splitNL ('\n' :: rest) = [] :: splitNL rest := by
    simp [splitNL]
  rw [h0]
  rcases List.exists_cons_of_ne_nil (splitNL_ne_nil rest) with ⟨x, L, hL⟩
  rw [hL]
  have g1 : (hdr :: x :: L).getLast? = (x :: L).getLast? := rfl
  have g2 : (([] : List Char) :: x :: L).getLast? = (x :: L).getLast? := rfl
  rw [g1, g2]
  split <;> simp

/-- C5: within the selected block the first line is never passed to the
line parser — the parse result does not depend on its content — and the
spec's example block (a header line followed by two valid data lines)
yields exactly 2 records and 0 failures. -/
theorem parse_block_skips_header_line :
    (∀ hdr rest : List Char, '\n' ∉ hdr →
        parse_block (hdr ++ '\n' :: rest) = parse_block ('\n' :: rest)) ∧
      (parse_block ("Name Mode Cnt Score Unused Error Units\nb1 thrpt 5 10.5 0.9 0.5 ops/s\nb2 avgt 3 2.0 0.9 0.1 ms/op".toList)).1.length = 2 ∧
      (parse_block ("Name Mode Cnt Score Unused Error Units\nb1 thrpt 5 10.5 0.9 0.5 ops/s\nb2 avgt 3 2.0 0.9 0.1 ms/op".toList)).2 = [] := by
  refine ⟨fun hdr rest h => ?_, rfl, rfl⟩
  unfold parse_block
  rw [parse_block_rows_header hdr rest h]

/-- C5 witness: the header-irrelevance part applied to a concrete header
line and block remainder. -/
theorem parse_block_skips_header_line_witness :
    parse_block ("AnyHeader x y z".toList ++ '\n' :: "b1 thrpt 5 10.5 0.9 0.5 ops/s".toList) =
      parse_block ('\n' :: "b1 thrpt 5 10.5 0.9 0.5 ops/s".toList) :=
  parse_block_skips_header_line.1 "AnyHeader x y z".toList
    "b1 thrpt 5 10.5 0.9 0.5 ops/s".toList (by decide)

/-- C4: the block parser splits the content on double-newline boundaries
and parses only the last block: everything before the final blank-line
separator contributes no records and no failures, whatever it contains. -/
theorem parse_file_uses_only_last_block (pre post : List Char)
    (h1 : hasDNL (pre ++ ['\n']) = false) (h2 : hasDNL post = false) :
    parse_file (pre ++ '\n' :: '\n' :: post) = parse_block post := by
  unfold parse_file
  rw [splitOnDNL_append_sep pre post h1, splitOnDNL_no_dnl post h2]
  rfl

/-- C4 witness: a preamble consisting of correctly formatted data lines
is still ignored; only the block after the blank line is parsed. -/
theorem parse_file_uses_only_last_block_witness :
    hasDNL ("A thrpt 1 1.5 u 0.1 ops\nB thrpt 2 2.5 u 0.2 ops".toList ++ ['\n']) = false ∧
      hasDNL "Hdr\nC avgt 3 3.5 u 0.3 ms".toList = false ∧
      parse_file ("A thrpt 1 1.5 u 0.1 ops\nB thrpt 2 2.5 u 0.2 ops".toList
          ++ '\n' :: '\n' :: "Hdr\nC avgt 3 3.5 u 0.3 ms".toList) =
        parse_block "Hdr\nC avgt 3 3.5 u 0.3 ms".toList :=
  ⟨by decide, by decide,
    parse_file_uses_only_last_block _ _ (by decide) (by decide)⟩

/-- C9: parsing an empty file content succeeds with an empty record
sequence and an empty failure sequence. -/
theorem parse_file_empty_ok : parse_file [] = ([], []) := rfl

/-- Example record as parsed from the line `"b1 thrpt 5 7 ZZ 3 ops"`. -/
def exRow : BenchResult :=
  { name := "b1".toList, mode := .Throughput, count := 5,
    score := .finite 7, error := .finite 3, units := "ops".toList }

/-- C6: for every input line, the line parser returns either a fully
populated record or exactly one failure — the failure of the first
missing or invalid field in left-to-right order, with the per-field
classification spelled out positionally by `rowSpecAt`. -/
theorem parse_row_first_failure_classified (line : List Char) :
    parse_row line = rowSpecAt (splitWS line) :=
  parse_tokens_eq_rowSpecAt (splitWS line)

/-- C7: the line parser skips exactly one token between score and error:
replacing the fifth token by anything leaves the result unchanged, and
in the success case the record's error field comes from the sixth token
and its units field is the seventh token. -/
theorem parse_row_skips_fifth_token (line : List Char)
    (t0 t1 t2 t3 t4 t5 t6 x : List Char) (rest : List (List Char))
    (h : splitWS line = t0 :: t1 :: t2 :: t3 :: t4 :: t5 :: t6 :: rest) :
    parse_tokens (t0 :: t1 :: t2 :: t3 :: x :: t5 :: t6 :: rest) = parse_row line ∧
      ∀ r, parse_row line = .ok r → parseF64 t5 = some r.error ∧ r.units = t6 := by
  unfold parse_row
  rw [h]
  constructor
  · cases hm : modeFromStr t1 with
    | error e => simp [parse_tokens, hm]
    | ok m =>
      cases hi : parseI64 t2 with
      | none => simp [parse_tokens, hm, hi]
      | some cnt =>
        cases hs : parseF64 t3 with
        | none => simp [parse_tokens, hm, hi, hs]
        | some sc =>
          cases hf : parseF64 t5 <;> simp [parse_tokens, hm, hi, hs, hf]
  · intro r hr
    cases hm : modeFromStr t1 with
    | error e => simp [parse_tokens, hm] at hr
    | ok m =>
      cases hi : parseI64 t2 with
      | none => simp [parse_tokens, hm, hi] at hr
      | some cnt =>
        cases hs : parseF64 t3 with
        | none => simp [parse_tokens, hm, hi, hs] at hr
        | some sc =>
          cases hf : parseF64 t5 with
          | none => simp [parse_tokens, hm, hi, hs, hf] at hr
          | some er =>
            simp only [parse_tokens, hm, hi, hs, hf, Except.ok.injEq] at hr
            subst hr
            exact ⟨rfl, rfl⟩

/-- C7 witness: a concrete seven-token line; the fifth token `ZZ` can be
replaced by `Q` without changing the result, and the parsed record takes
its error from the sixth token and its units from the seventh. -/
theorem parse_row_skips_fifth_token_witness :
    parse_tokens ["b1".toList, "thrpt".toList, "5".toList, "7".toList,
        "Q".toList, "3".toList, "ops".toList] =
      parse_row "b1 thrpt 5 7 ZZ 3 ops".toList ∧
      parseF64 "3".toList = some exRow.error ∧ exRow.units = "ops".toList :=
  ⟨(parse_row_skips_fifth_token "b1 thrpt 5 7 ZZ 3 ops".toList
      "b1".toList "thrpt".toList "5".toList "7".toList "ZZ".toList
      "3".toList "ops".toList "Q".toList [] (by decide)).1,
    (parse_row_skips_fifth_token "b1 thrpt 5 7 ZZ 3 ops".toList
      "b1".toList "thrpt".toList "5".toList "7".toList "ZZ".toList
      "3".toList "ops".toList "Q".toList [] (by decide)).2 exRow rfl⟩

/-- C8: mode parsing is a case-insensitive exact match against the four
canonical tokens — any other token yields `InvalidMode` — and rendering
the parsed mode reproduces the lowercase form of the token. -/
theorem mode_parse_render_roundtrip (t : List Char) :
    (∀ m, modeFromStr t = .ok m → modeRender m = t.map Char.toLower) ∧
      (modeFromStr t = .error .InvalidMode ↔
        ¬(t.map Char.toLower = "avgt".toList ∨
          t.map Char.toLower = "sample".toList ∨
          t.map Char.toLower = "ss".toList ∨
          t.map Char.toLower = "thrpt".toList)) := by
  simp only [modeFromStr]
  split_ifs with h1 h2 h3 h4 <;>
    constructor <;>
    simp_all [modeRender]

/-- C8 witness: a mixed-case valid token round-trips to its lowercase
form. -/
theorem mode_parse_render_roundtrip_witness :
    modeRender Mode.Throughput = "ThRpT".toList.map Char.toLower :=
  (mode_parse_render_roundtrip "ThRpT".toList).1 Mode.Throughput rfl

/-- C10: a non-empty line of only whitespace after the header is not
skipped as blank: it reaches the line parser and contributes exactly one
`MissingName` failure and no record. -/
theorem whitespace_line_not_blank (w hdr : List Char)
    (hne : w ≠ []) (hws : w.all isWS = true) (hh : '\n' ∉ hdr) (hw : '\n' ∉ w) :
    parse_row w = .error .MissingName ∧
      parse_block (hdr ++ '\n' :: w) = ([], [.MissingName]) := by
  have hrow : parse_row w = .error .MissingName := by
    unfold parse_row splitWS
    rw [splitWSAux_all_ws w hws]
    rfl
  refine ⟨hrow, ?_⟩
  unfold parse_block
  simp only [splitTerminatorNL]
  rw [splitNL_append_newline hdr w hh, splitNL_no_newline w hw]
  have hlast : ([hdr, w] : List (List Char)).getLast? = some w := rfl
  rw [hlast, if_neg (by simpa using hne)]
  simp [hrow]

/-- C10 witness: the two-character line `" \t"` after a header line. -/
theorem whitespace_line_not_blank_witness :
    parse_row [' ', '\t'] = .error .MissingName ∧
      parse_block ("Name".toList ++ '\n' :: [' ', '\t']) =
        ([], [.MissingName]) :=
  whitespace_line_not_blank [' ', '\t'] "Name".toList
    (by decide) (by decide) (by decide) (by decide)
